import Mathlib

/-!
Verification of the GeminiLooper key-selection and rate-budget engine.

The definitions below are a shallow embedding of the Go source:
`key_manager.go` (KeyManager, GetKey, RecordUsage, HandleRateLimitError,
EnableModel, resetQuotas, UpdateLanguageModelUsage, GetStatus) and the
request-dispatch loop of `proxyHandler` in main.go.  Go machine integers
are modelled as `Nat` (all quantities involved — token counts, limits,
timestamps — are non-negative in the program), Go maps as association
lists keyed by the `modelName ++ "_" ++ key` strings the source builds,
and in-place pointer mutation as functional record update threaded
through the association list.  Wall-clock time is passed explicitly as a
`now : Nat` parameter, exactly where the source calls `time.Now().Unix()`.
-/

/-- One usage record: `UsageData` in the source (`timestamp`, `cost_token`). -/
structure UsageData where
  timestamp : Nat
  costToken : Nat
deriving DecidableEq

/-- Per-model configuration: `LanguageModel` in the source.  `modelName`
carries the map key (set on load), `tpmLimit` and optional `tpdLimit`. -/
structure LanguageModel where
  modelName : String
  tpmLimit : Nat
  tpdLimit : Option Nat
deriving DecidableEq

/-- The Go zero value of `LanguageModel`, produced when indexing the models
map with an absent name. -/
def zeroLanguageModel : LanguageModel :=
  { modelName := "", tpmLimit := 0, tpdLimit := none }

/-- Per-(model, key) accounting cell: `LanguageModelUsage` in the source.
The embedded `LanguageModel` copy, the lifetime total, the daily counter,
the 24-hour history, the two disable flags, the runtime-only
`JustHit429` flag and the materialized 60-second window. -/
structure LanguageModelUsage where
  languageModel : LanguageModel
  totalTokenUse : Nat
  todayUsage : Nat
  past24HoursTokenUsage : List UsageData
  probablyExceeded : Bool
  exceeded : Bool
  justHit429 : Bool
  past60sTokenUsage : List UsageData
deriving DecidableEq

/-- Registry entry: `KeyInfo` in the source. -/
structure KeyInfo where
  key : String
  isPriority : Bool
  currentIndex : Nat
deriving DecidableEq

/-- The slice of `KeyManagerConfig` the engine operations consume
(`priority_keys`, `secondary_keys`, `models`, `default_model`); the
timezone / reset-datetime fields only feed the wall-clock scheduler and
are not needed by any operation modelled here. -/
structure KeyManagerConfig where
  priorityKeys : List String
  secondaryKeys : List String
  models : List (String × LanguageModel)
  defaultModel : String
deriving DecidableEq

/-- The engine state: config, the ordered key registry, and the usage map
keyed by `modelName ++ "_" ++ key` (`KeyManager.usage` in the source). -/
structure KeyManager where
  config : KeyManagerConfig
  keys : List KeyInfo
  usage : List (String × LanguageModelUsage)
deriving DecidableEq

/-- Association-list lookup, modelling Go map indexing with comma-ok. -/
def alookup {β : Type} : List (String × β) → String → Option β
  | [], _ => none
  | (k, v) :: rest, k2 => if k = k2 then some v else alookup rest k2

/-- Association-list update, modelling in-place mutation of the cell a Go
map entry points to (the binding for `k2` is replaced; absent keys are
never inserted by the engine operations, which mutate only cells they
have already looked up). -/
def aset {β : Type} : List (String × β) → String → β → List (String × β)
  | [], _, _ => []
  | (k, v) :: rest, k2, v2 => if k = k2 then (k2, v2) :: rest else (k, v) :: aset rest k2 v2

/-- Sum of `CostToken` over a record list, as the source's accumulation
loops compute it. -/
def sumTokens (l : List UsageData) : Nat :=
  l.foldl (fun acc d => acc + d.costToken) 0

/-- `UpdateLanguageModelUsage` from the source: lazily trims
`Past24HoursTokenUsage` to records with timestamp at least `now − 86400`
and materializes `Past60sTokenUsage` from the trimmed history as the
records with timestamp at least `now − 60`.  The Go comparisons are on
int64; with `Nat` truncated subtraction a `now` below the window width
gives threshold 0, which admits every (non-negative) timestamp exactly
as the negative Go threshold does. -/
def updateLanguageModelUsage (u : LanguageModelUsage) (now : Nat) : LanguageModelUsage :=
  let updated24 := u.past24HoursTokenUsage.filter (fun d => now - 86400 ≤ d.timestamp)
  { u with
    past24HoursTokenUsage := updated24
    past60sTokenUsage := updated24.filter (fun d => now - 60 ≤ d.timestamp) }

/-- The TPD test `GetKey` applies: a configured positive `tpd_limit`
reached by the 24-hour token sum. -/
def tpdExceeded (model : LanguageModel) (u : LanguageModelUsage) : Bool :=
  match model.tpdLimit with
  | none => false
  | some l => decide (0 < l) && decide (l ≤ sumTokens u.past24HoursTokenUsage)

/-- Availability tier of a cell as the `GetKey` scan classifies it. -/
inductive KeyClass where
  | unavailable
  | degraded
  | available
deriving DecidableEq

/-- One iteration of the `GetKey` scan body on a present cell: update the
cell, then in source order apply the 4,100,000 hard daily cap (sets
`exceeded`), the TPD cap (sets `exceeded`), the `exceeded` skip, and the
`probably_exceeded` demotion.  Returns the mutated cell and its tier. -/
def processCell (model : LanguageModel) (now : Nat) (u : LanguageModelUsage) :
    LanguageModelUsage × KeyClass :=
  let u2 := updateLanguageModelUsage u now
  if 4100000 ≤ u2.todayUsage then ({ u2 with exceeded := true }, KeyClass.unavailable)
  else if tpdExceeded model u2 then ({ u2 with exceeded := true }, KeyClass.unavailable)
  else if u2.exceeded then (u2, KeyClass.unavailable)
  else if u2.probablyExceeded then (u2, KeyClass.degraded)
  else (u2, KeyClass.available)

/-- Tier of an optional cell: a missing usage entry is skipped by the scan
(`continue` in the source), i.e. unavailable. -/
def classifyCell (model : LanguageModel) (now : Nat) : Option LanguageModelUsage → KeyClass
  | none => KeyClass.unavailable
  | some u => (processCell model now u).2

/-- Pre-call delay of `GetKey` in whole seconds.  The source computes
`time.Duration(float64(excess)/float64(limit)*60) * time.Second` and then
overrides with 60 s when the window exceeds the limit; converting the
float to `time.Duration` truncates toward zero, so the delay is the
real quotient `excess*60/limit` truncated to a whole number of seconds,
modelled here by exact natural division.  A zero `tpmLimit` (absent
model, Go zero value) falls into the 60 s branch for any positive
window, as in the source. -/
def precallDelay (tpmLimit t60 : Nat) : Nat :=
  if tpmLimit < t60 then 60
  else if tpmLimit / 2 < t60 then (t60 - tpmLimit / 2) * 60 / tpmLimit
  else 0

/-- Model-name resolution at the top of `GetKey`: an unknown model falls
back to the configured default model. -/
def resolveModelName (cfg : KeyManagerConfig) (modelName : String) : String :=
  if (alookup cfg.models modelName).isSome then modelName else cfg.defaultModel

/-- Go map indexing `km.config.Models[name]`: the configured model, or the
zero value when absent. -/
def modelOf (cfg : KeyManagerConfig) (name : String) : LanguageModel :=
  (alookup cfg.models name).getD zeroLanguageModel

/-- The key registry as `NewKeyManager` builds it: all priority keys in
config order, then all secondary keys in config order, with running
indices. -/
def buildKeys (cfg : KeyManagerConfig) : List KeyInfo :=
  (cfg.priorityKeys.enum.map fun p => { key := p.2, isPriority := true, currentIndex := p.1 })
    ++ (cfg.secondaryKeys.enum.map fun p =>
        { key := p.2, isPriority := false, currentIndex := cfg.priorityKeys.length + p.1 })

/-- Accumulated result of the `GetKey` scan: the mutated usage map and the
`availableKeys` / `probablyAvailableKeys` lists in scan order. -/
structure ScanAcc where
  usage : List (String × LanguageModelUsage)
  primary : List KeyInfo
  fallback : List KeyInfo

/-- The `GetKey` scan over the key registry: for each key, look up its
cell (skipping keys whose usage entry is missing), process it, store the
mutated cell back, and collect the key into the tier list its
classification selects.  The collected lists preserve scan order. -/
def scanKeys (model : LanguageModel) (resolved : String) (now : Nat) :
    List KeyInfo → List (String × LanguageModelUsage) → ScanAcc
  | [], usage => ⟨usage, [], []⟩
  | ki :: rest, usage =>
    match alookup usage (resolved ++ "_" ++ ki.key) with
    | none => scanKeys model resolved now rest usage
    | some u =>
      let p := processCell model now u
      let acc := scanKeys model resolved now rest (aset usage (resolved ++ "_" ++ ki.key) p.1)
      match p.2 with
      | KeyClass.unavailable => acc
      | KeyClass.degraded => ⟨acc.usage, acc.primary, ki :: acc.fallback⟩
      | KeyClass.available => ⟨acc.usage, ki :: acc.primary, acc.fallback⟩

/-- The 60-second window sum `GetKey` reads from the chosen key's cell
after the scan (the cell is necessarily present; the `none` arm is dead
code kept total). -/
def past60Sum (usage : List (String × LanguageModelUsage)) (mk : String) : Nat :=
  match alookup usage mk with
  | some u => sumTokens u.past60sTokenUsage
  | none => 0

/-- Result of `GetKey`: the usage map after the scan's lazy mutations, and
on success the chosen API key, the resolved model name and the pre-call
delay in seconds; `none` is the "no available keys" error. -/
structure GetKeyOutcome where
  usage : List (String × LanguageModelUsage)
  result : Option (String × String × Nat)

/-- `GetKey` from the source: resolve the model name, scan the registry,
take the available tier if non-empty, else the probably-exceeded tier,
else fail; return the first candidate together with its TPM delay. -/
def getKey (km : KeyManager) (modelName : String) (now : Nat) : GetKeyOutcome :=
  let resolved := resolveModelName km.config modelName
  let model := modelOf km.config resolved
  let acc := scanKeys model resolved now km.keys km.usage
  let cands := if acc.primary.isEmpty then acc.fallback else acc.primary
  match cands with
  | [] => ⟨acc.usage, none⟩
  | ki :: _ =>
    ⟨acc.usage,
      some (ki.key, resolved,
        precallDelay model.tpmLimit (past60Sum acc.usage (resolved ++ "_" ++ ki.key)))⟩

/-- `RecordUsage` from the source: on a present cell, add the token count
to the lifetime and daily counters, append a `(now, tokens)` record to
the 24-hour history, clear `JustHit429`, and trim the windows. -/
def recordUsage (km : KeyManager) (modelName apiKey : String) (tokenCount now : Nat) :
    KeyManager :=
  match alookup km.usage (modelName ++ "_" ++ apiKey) with
  | none => km
  | some u =>
    let u2 := updateLanguageModelUsage
      { u with
        totalTokenUse := u.totalTokenUse + tokenCount
        todayUsage := u.todayUsage + tokenCount
        past24HoursTokenUsage := u.past24HoursTokenUsage ++ [⟨now, tokenCount⟩]
        justHit429 := false } now
    { km with usage := aset km.usage (modelName ++ "_" ++ apiKey) u2 }

/-- `HandleRateLimitError` from the source: on a present cell, trim the
windows; if the daily counter is at or above 4,100,000 mark the cell
`exceeded`; otherwise apply the two-strike escalation on `JustHit429`. -/
def handleRateLimitError (km : KeyManager) (modelName apiKey : String) (now : Nat) :
    KeyManager :=
  match alookup km.usage (modelName ++ "_" ++ apiKey) with
  | none => km
  | some u =>
    let u1 := updateLanguageModelUsage u now
    let u2 :=
      if 4100000 ≤ u1.todayUsage then { u1 with exceeded := true }
      else if u1.justHit429 then { u1 with probablyExceeded := true, justHit429 := false }
      else { u1 with justHit429 := true }
    { km with usage := aset km.usage (modelName ++ "_" ++ apiKey) u2 }

/-- The cell mutation `EnableModel` applies when `probably_exceeded` is
set: clear it together with `JustHit429`. -/
def enabledCell (u : LanguageModelUsage) : LanguageModelUsage :=
  { u with probablyExceeded := false, justHit429 := false }

/-- `EnableModel` from the source (the spec's `EnableKey`): on a present
cell, only when `probably_exceeded` is set, clear it and `JustHit429`;
otherwise the call is a no-op. -/
def enableModel (km : KeyManager) (modelName apiKey : String) : KeyManager :=
  match alookup km.usage (modelName ++ "_" ++ apiKey) with
  | none => km
  | some u =>
    if u.probablyExceeded then
      { km with usage := aset km.usage (modelName ++ "_" ++ apiKey) (enabledCell u) }
    else km

/-- The per-cell mutation the `resetQuotas` loop applies: zero the daily
counter, empty the 24-hour history, and clear both disable flags; the
lifetime total (and every other field) is untouched. -/
def resetCellTransform (u : LanguageModelUsage) : LanguageModelUsage :=
  { u with
    todayUsage := 0
    past24HoursTokenUsage := []
    exceeded := false
    probablyExceeded := false }

/-- `resetQuotas` from the source: apply the reset mutation to every cell
of the usage map. -/
def resetQuotas (km : KeyManager) : KeyManager :=
  { km with usage := km.usage.map (fun e => (e.1, resetCellTransform e.2)) }

/-- The key list `GetStatus` iterates: priority keys then secondary keys. -/
def statusAllKeys (km : KeyManager) : List String :=
  km.config.priorityKeys ++ km.config.secondaryKeys

/-- The model-name list `GetStatus` iterates.  The source sorts the names
alphabetically before iterating; the order is irrelevant to the key-set
membership facts proved here, so the configured order is kept. -/
def statusModelOrder (km : KeyManager) : List String :=
  km.config.models.map Prod.fst

/-- Flag test on an optional cell, as the `GetStatus` loop reads it (a
missing cell contributes nothing). -/
def cellFlag (usage : List (String × LanguageModelUsage)) (mk : String)
    (f : LanguageModelUsage → Bool) : Bool :=
  match alookup usage mk with
  | some u => f u
  | none => false

/-- The `rate_limited_keys` set of `GetStatus`: keys with
`probably_exceeded` on some model's cell.  The source collects them into
a Go map (deduplicating) and returns the sorted key list; membership is
modelled by a deduplicated filter, sorting being irrelevant to set
membership. -/
def statusRateLimitedKeys (km : KeyManager) : List String :=
  ((statusAllKeys km).filter (fun k =>
    (statusModelOrder km).any (fun mn =>
      cellFlag km.usage (mn ++ "_" ++ k) (fun u => u.probablyExceeded)))).dedup

/-- The `quota_exhausted_keys` set of `GetStatus`: keys with `exceeded` on
some model's cell. -/
def statusQuotaExhaustedKeys (km : KeyManager) : List String :=
  ((statusAllKeys km).filter (fun k =>
    (statusModelOrder km).any (fun mn =>
      cellFlag km.usage (mn ++ "_" ++ k) (fun u => u.exceeded)))).dedup

/-- The `unavailable_keys` set of `GetStatus`: the source never writes into
the backing map, so the set is always empty. -/
def statusUnavailableKeys (_km : KeyManager) : List String := []

/-- Outcome of one proxied client request as `proxyHandler` produces it. -/
inductive DispatchResult where
  | success (tokens : Nat)
  | noKeyAvailable
  | upstreamVerbatim (status : Nat)
  | retriesExhausted
deriving DecidableEq

/-- The retry loop of `proxyHandler` (the current main.go, whose handler
fetches the first key before the loop and registers the enable-model
endpoint the dashboard calls), with the upstream modelled as a function
from the attempt index to a `(status, totalTokenCount)` pair and the
attempt bound as structural fuel (the source uses
`for i := 0; i < 5; i++`).  At the top of every retry iteration
(`i > 0`) a fresh key is fetched via `GetKey` on the client-requested
model name, overwriting the carried key; a fetch failure is surfaced as
the no-key error; attempt 0 uses the key fetched before the loop.  The
forward outcome is then dispatched: HTTP 200 records usage and returns;
HTTP 429 marks the key via the two-strike handler and retries; HTTP 503
sleeps a fixed 5 seconds and retries with the key state untouched; any
other status is returned verbatim.  `time.Sleep` calls and body
plumbing have no state-visible effect and are not modelled. -/
def dispatchIter (upstream : Nat → Nat × Nat) (now : Nat) (initialModelName : String) :
    Nat → Nat → String → String → KeyManager → KeyManager × DispatchResult
  | 0, _, _, _, km => (km, DispatchResult.retriesExhausted)
  | fuel + 1, i, apiKey0, modelName0, km0 =>
    let fetched : Option (String × String) × KeyManager :=
      if 0 < i then
        let out := getKey km0 initialModelName now
        (out.result.map (fun r => (r.1, r.2.1)), { km0 with usage := out.usage })
      else (some (apiKey0, modelName0), km0)
    match fetched.1 with
    | none => (fetched.2, DispatchResult.noKeyAvailable)
    | some (apiKey, modelName) =>
      let km := fetched.2
      let r := upstream i
      if r.1 = 200 then
        (recordUsage km modelName apiKey r.2 now, DispatchResult.success r.2)
      else if r.1 = 429 then
        dispatchIter upstream now initialModelName fuel (i + 1) apiKey modelName
          (handleRateLimitError km modelName apiKey now)
      else if r.1 = 503 then
        dispatchIter upstream now initialModelName fuel (i + 1) apiKey modelName km
      else (km, DispatchResult.upstreamVerbatim r.1)

/-- `proxyHandler`'s dispatch of one request: the initial `GetKey` before
the loop (a failure is the no-key error), then the retry loop with its
5-attempt bound. -/
def proxyDispatch (km : KeyManager) (modelName : String) (now : Nat)
    (upstream : Nat → Nat × Nat) : KeyManager × DispatchResult :=
  let out := getKey km modelName now
  let km1 := { km with usage := out.usage }
  match out.result with
  | none => (km1, DispatchResult.noKeyAvailable)
  | some (apiKey, resolved, _delay) =>
    dispatchIter upstream now modelName 5 0 apiKey resolved km1

/-- Boolean form of "classified Available" for a key against a usage map,
used to state the Selector theorems. -/
def availableB (model : LanguageModel) (now : Nat)
    (usage : List (String × LanguageModelUsage)) (resolved : String) (ki : KeyInfo) : Bool :=
  classifyCell model now (alookup usage (resolved ++ "_" ++ ki.key)) == KeyClass.available

/-- Boolean form of "classified Degraded" for a key against a usage map. -/
def degradedB (model : LanguageModel) (now : Nat)
    (usage : List (String × LanguageModelUsage)) (resolved : String) (ki : KeyInfo) : Bool :=
  classifyCell model now (alookup usage (resolved ++ "_" ++ ki.key)) == KeyClass.degraded

/-- A small model configuration used by concrete witness states. -/
def mdlM : LanguageModel := { modelName := "M", tpmLimit := 1000, tpdLimit := none }

/-- A fresh, never-used cell, as `LoadKeyUsage` initializes one. -/
def freshCell : LanguageModelUsage :=
  { languageModel := mdlM, totalTokenUse := 0, todayUsage := 0,
    past24HoursTokenUsage := [], probablyExceeded := false, exceeded := false,
    justHit429 := false, past60sTokenUsage := [] }

/-- Concrete configuration: one priority key `K1`, one secondary key `K2`,
one model `M`. -/
def cfg1 : KeyManagerConfig :=
  { priorityKeys := ["K1"], secondaryKeys := ["K2"],
    models := [("M", mdlM)], defaultModel := "M" }

/-- Concrete engine state over `cfg1` with fresh cells. -/
def km1 : KeyManager :=
  { config := cfg1, keys := buildKeys cfg1,
    usage := [("M_K1", freshCell), ("M_K2", freshCell)] }

/-- Concrete state where `K1`'s cell is hard-disabled and `K2` is fresh. -/
def km3 : KeyManager :=
  { config := cfg1, keys := buildKeys cfg1,
    usage := [("M_K1", { freshCell with exceeded := true }), ("M_K2", freshCell)] }

/-- A worn cell with non-trivial counters and all flags set. -/
def wornCell : LanguageModelUsage :=
  { languageModel := mdlM, totalTokenUse := 123, todayUsage := 5000,
    past24HoursTokenUsage := [⟨50, 5000⟩], probablyExceeded := true, exceeded := true,
    justHit429 := true, past60sTokenUsage := [] }

/-- Concrete state holding `wornCell` for the reset claims. -/
def km6 : KeyManager :=
  { config := cfg1, keys := buildKeys cfg1,
    usage := [("M_K1", wornCell), ("M_K2", freshCell)] }

/-- A cell that is not probably-exceeded but still carries the transient
429 flag. -/
def c7Cell : LanguageModelUsage :=
  { languageModel := mdlM, totalTokenUse := 0, todayUsage := 0,
    past24HoursTokenUsage := [], probablyExceeded := false, exceeded := false,
    justHit429 := true, past60sTokenUsage := [] }

/-- Concrete state holding `c7Cell` under key `K`. -/
def c7KM : KeyManager :=
  { config := { priorityKeys := ["K"], secondaryKeys := [],
                models := [("M", mdlM)], defaultModel := "M" },
    keys := buildKeys { priorityKeys := ["K"], secondaryKeys := [],
                        models := [("M", mdlM)], defaultModel := "M" },
    usage := [("M_K", c7Cell)] }

/-- A cell with both disable flags raised at once (reachable: a soft
two-strike disable followed by the daily counter crossing the hard cap
on a later selection). -/
def c9Cell : LanguageModelUsage :=
  { languageModel := mdlM, totalTokenUse := 0, todayUsage := 4100000,
    past24HoursTokenUsage := [], probablyExceeded := true, exceeded := true,
    justHit429 := false, past60sTokenUsage := [] }

/-- Concrete state holding `c9Cell` under key `K`. -/
def c9KM : KeyManager :=
  { config := { priorityKeys := ["K"], secondaryKeys := [],
                models := [("M", mdlM)], defaultModel := "M" },
    keys := buildKeys { priorityKeys := ["K"], secondaryKeys := [],
                        models := [("M", mdlM)], defaultModel := "M" },
    usage := [("M_K", c9Cell)] }

/-- A cell one token below the hard daily cap. -/
def nearCapCell : LanguageModelUsage :=
  { languageModel := mdlM, totalTokenUse := 4099999, todayUsage := 4099999,
    past24HoursTokenUsage := [], probablyExceeded := false, exceeded := false,
    justHit429 := false, past60sTokenUsage := [] }

/-- Concrete state holding `nearCapCell` under priority key `K1`. -/
def km8 : KeyManager :=
  { config := cfg1, keys := buildKeys cfg1,
    usage := [("M_K1", nearCapCell), ("M_K2", freshCell)] }

theorem alookup_aset_ne {β : Type} (m : List (String × β)) (k k2 : String) (v : β)
    (h : k ≠ k2) : alookup (aset m k v) k2 = alookup m k2 := by
  induction m with
  | nil => rfl
  | cons e rest ih =>
    obtain ⟨a, b⟩ := e
    by_cases ha : a = k
    · simp only [aset, if_pos ha, alookup, if_neg h,
        if_neg (fun hh => h (ha.symm.trans hh))]
    · simp only [aset, if_neg ha, alookup, ih]

theorem alookup_aset_self {β : Type} (m : List (String × β)) (k : String) (v w : β)
    (h : alookup m k = some w) : alookup (aset m k v) k = some v := by
  induction m with
  | nil => simp [alookup] at h
  | cons e rest ih =>
    obtain ⟨a, b⟩ := e
    by_cases ha : a = k
    · subst ha; simp [aset, alookup]
    · simp only [alookup, if_neg ha] at h
      simp [aset, alookup, ha, ih h]

theorem filter_self_filter {α : Type} (p : α → Bool) (l : List α) :
    (l.filter p).filter p = l.filter p := by
  induction l with
  | nil => rfl
  | cons a t ih =>
    cases hp : p a with
    | true => simp [List.filter_cons, hp, ih]
    | false => simp [List.filter_cons, hp, ih]

theorem filter_head_eq_find {α : Type} (p : α → Bool) (l : List α) :
    (l.filter p).head? = l.find? p := by
  induction l with
  | nil => rfl
  | cons a t ih =>
    cases hp : p a with
    | true => simp [List.filter_cons, List.find?, hp]
    | false => simp [List.filter_cons, List.find?, hp, ih]

theorem update_update (u : LanguageModelUsage) (now : Nat) :
    updateLanguageModelUsage (updateLanguageModelUsage u now) now
      = updateLanguageModelUsage u now := by
  cases u
  simp [updateLanguageModelUsage, filter_self_filter]

theorem update_set_exceeded (u : LanguageModelUsage) (now : Nat) :
    updateLanguageModelUsage { u with exceeded := true } now
      = { updateLanguageModelUsage u now with exceeded := true } := rfl

theorem processCell_todayUsage (model : LanguageModel) (now : Nat) (u : LanguageModelUsage) :
    (processCell model now u).1.todayUsage = u.todayUsage := by
  simp only [processCell]
  split_ifs <;> rfl

theorem processCell_probablyExceeded (model : LanguageModel) (now : Nat)
    (u : LanguageModelUsage) :
    (processCell model now u).1.probablyExceeded = u.probablyExceeded := by
  simp only [processCell]
  split_ifs <;> rfl

theorem processCell_exceeded_mono (model : LanguageModel) (now : Nat)
    (u : LanguageModelUsage) (h : u.exceeded = true) :
    (processCell model now u).1.exceeded = true := by
  simp only [processCell]
  split_ifs <;> first | rfl | exact h

theorem processCell_exceeded_cap (model : LanguageModel) (now : Nat)
    (u : LanguageModelUsage) (h : 4100000 ≤ u.todayUsage) :
    (processCell model now u).1.exceeded = true := by
  simp only [processCell]
  rw [if_pos (show 4100000 ≤ (updateLanguageModelUsage u now).todayUsage from h)]

theorem update_todayUsage (u : LanguageModelUsage) (now : Nat) :
    (updateLanguageModelUsage u now).todayUsage = u.todayUsage := rfl

theorem update_exceeded (u : LanguageModelUsage) (now : Nat) :
    (updateLanguageModelUsage u now).exceeded = u.exceeded := rfl

theorem update_probablyExceeded (u : LanguageModelUsage) (now : Nat) :
    (updateLanguageModelUsage u now).probablyExceeded = u.probablyExceeded := rfl

theorem update_justHit429 (u : LanguageModelUsage) (now : Nat) :
    (updateLanguageModelUsage u now).justHit429 = u.justHit429 := rfl

theorem update_totalTokenUse (u : LanguageModelUsage) (now : Nat) :
    (updateLanguageModelUsage u now).totalTokenUse = u.totalTokenUse := rfl

theorem set_exceeded_todayUsage (u : LanguageModelUsage) :
    ({ u with exceeded := true } : LanguageModelUsage).todayUsage = u.todayUsage := rfl

theorem tpd_set_exceeded (model : LanguageModel) (u : LanguageModelUsage) :
    tpdExceeded model { u with exceeded := true } = tpdExceeded model u := rfl

theorem processCell_snd_stable (model : LanguageModel) (now : Nat) (u : LanguageModelUsage) :
    (processCell model now (processCell model now u).1).2 = (processCell model now u).2 := by
  have hidem := update_update u now
  by_cases h1 : 4100000 ≤ (updateLanguageModelUsage u now).todayUsage
  · have e1 : processCell model now u
        = ({ updateLanguageModelUsage u now with exceeded := true }, KeyClass.unavailable) := by
      simp [processCell, h1]
    rw [e1]
    simp [processCell, update_set_exceeded, hidem, set_exceeded_todayUsage, h1]
  · by_cases h2 : tpdExceeded model (updateLanguageModelUsage u now) = true
    · have e1 : processCell model now u
          = ({ updateLanguageModelUsage u now with exceeded := true }, KeyClass.unavailable) := by
        simp [processCell, h1, h2]
      rw [e1]
      simp [processCell, update_set_exceeded, hidem, set_exceeded_todayUsage,
        tpd_set_exceeded, h1, h2]
    · by_cases h3 : (updateLanguageModelUsage u now).exceeded = true
      · have e1 : processCell model now u
            = (updateLanguageModelUsage u now, KeyClass.unavailable) := by
          simp [processCell, h1, h2, h3]
        rw [e1]
        simp [processCell, hidem, h1, h2, h3]
      · by_cases h4 : (updateLanguageModelUsage u now).probablyExceeded = true
        · have e1 : processCell model now u
              = (updateLanguageModelUsage u now, KeyClass.degraded) := by
            simp [processCell, h1, h2, h3, h4]
          rw [e1]
          simp [processCell, hidem, h1, h2, h3, h4]
        · have e1 : processCell model now u
              = (updateLanguageModelUsage u now, KeyClass.available) := by
            simp [processCell, h1, h2, h3, h4]
          rw [e1]
          simp [processCell, hidem, h1, h2, h3, h4]

theorem classify_aset_stable (model : LanguageModel) (now : Nat)
    (usage : List (String × LanguageModelUsage)) (mk : String) (u : LanguageModelUsage)
    (h : alookup usage mk = some u) (k2 : String) :
    classifyCell model now (alookup (aset usage mk (processCell model now u).1) k2)
      = classifyCell model now (alookup usage k2) := by
  by_cases hk : mk = k2
  · subst hk
    rw [alookup_aset_self usage mk (processCell model now u).1 u h, h]
    show (processCell model now (processCell model now u).1).2 = (processCell model now u).2
    exact processCell_snd_stable model now u
  · rw [alookup_aset_ne usage mk k2 _ hk]

theorem scan_spec (model : LanguageModel) (resolved : String) (now : Nat)
    (ks : List KeyInfo) :
    ∀ usage : List (String × LanguageModelUsage),
      (scanKeys model resolved now ks usage).primary
          = ks.filter (availableB model now usage resolved)
        ∧ (scanKeys model resolved now ks usage).fallback
          = ks.filter (degradedB model now usage resolved) := by
  induction ks with
  | nil => intro usage; exact ⟨rfl, rfl⟩
  | cons ki rest ih =>
    intro usage
    cases hlook : alookup usage (resolved ++ "_" ++ ki.key) with
    | none =>
      have hav : availableB model now usage resolved ki = false := by
        simp [availableB, hlook, classifyCell]
      have hdg : degradedB model now usage resolved ki = false := by
        simp [degradedB, hlook, classifyCell]
      have hs : scanKeys model resolved now (ki :: rest) usage
          = scanKeys model resolved now rest usage := by
        simp only [scanKeys, hlook]
      rw [hs]
      constructor
      · rw [(ih usage).1]
        simp [List.filter_cons, hav]
      · rw [(ih usage).2]
        simp [List.filter_cons, hdg]
    | some u =>
      have hcls : classifyCell model now (alookup usage (resolved ++ "_" ++ ki.key))
          = (processCell model now u).2 := by rw [hlook]; rfl
      have hstabA : ∀ ki2 ∈ rest,
          availableB model now
              (aset usage (resolved ++ "_" ++ ki.key) (processCell model now u).1) resolved ki2
            = availableB model now usage resolved ki2 := by
        intro ki2 _
        unfold availableB
        rw [classify_aset_stable model now usage _ u hlook]
      have hstabD : ∀ ki2 ∈ rest,
          degradedB model now
              (aset usage (resolved ++ "_" ++ ki.key) (processCell model now u).1) resolved ki2
            = degradedB model now usage resolved ki2 := by
        intro ki2 _
        unfold degradedB
        rw [classify_aset_stable model now usage _ u hlook]
      obtain ⟨ihp, ihd⟩ :=
        ih (aset usage (resolved ++ "_" ++ ki.key) (processCell model now u).1)
      have hfp : rest.filter (availableB model now
              (aset usage (resolved ++ "_" ++ ki.key) (processCell model now u).1) resolved)
          = rest.filter (availableB model now usage resolved) := List.filter_congr hstabA
      have hfd : rest.filter (degradedB model now
              (aset usage (resolved ++ "_" ++ ki.key) (processCell model now u).1) resolved)
          = rest.filter (degradedB model now usage resolved) := List.filter_congr hstabD
      cases hc : (processCell model now u).2 with
      | unavailable =>
        have hsP : (scanKeys model resolved now (ki :: rest) usage).primary
            = (scanKeys model resolved now rest
                (aset usage (resolved ++ "_" ++ ki.key) (processCell model now u).1)).primary := by
          simp only [scanKeys, hlook, hc]
        have hsF : (scanKeys model resolved now (ki :: rest) usage).fallback
            = (scanKeys model resolved now rest
                (aset usage (resolved ++ "_" ++ ki.key) (processCell model now u).1)).fallback := by
          simp only [scanKeys, hlook, hc]
        have havF : availableB model now usage resolved ki = false := by
          simp [availableB, hcls, hc]
        have hdgF : degradedB model now usage resolved ki = false := by
          simp [degradedB, hcls, hc]
        constructor
        · rw [hsP, ihp, hfp]
          simp [List.filter_cons, havF]
        · rw [hsF, ihd, hfd]
          simp [List.filter_cons, hdgF]
      | degraded =>
        have hsP : (scanKeys model resolved now (ki :: rest) usage).primary
            = (scanKeys model resolved now rest
                (aset usage (resolved ++ "_" ++ ki.key) (processCell model now u).1)).primary := by
          simp only [scanKeys, hlook, hc]
        have hsF : (scanKeys model resolved now (ki :: rest) usage).fallback
            = ki :: (scanKeys model resolved now rest
                (aset usage (resolved ++ "_" ++ ki.key) (processCell model now u).1)).fallback := by
          simp only [scanKeys, hlook, hc]
        have havF : availableB model now usage resolved ki = false := by
          simp [availableB, hcls, hc]
        have hdgT : degradedB model now usage resolved ki = true := by
          simp [degradedB, hcls, hc]
        constructor
        · rw [hsP, ihp, hfp]
          simp [List.filter_cons, havF]
        · rw [hsF, ihd, hfd]
          simp [List.filter_cons, hdgT]
      | available =>
        have hsP : (scanKeys model resolved now (ki :: rest) usage).primary
            = ki :: (scanKeys model resolved now rest
                (aset usage (resolved ++ "_" ++ ki.key) (processCell model now u).1)).primary := by
          simp only [scanKeys, hlook, hc]
        have hsF : (scanKeys model resolved now (ki :: rest) usage).fallback
            = (scanKeys model resolved now rest
                (aset usage (resolved ++ "_" ++ ki.key) (processCell model now u).1)).fallback := by
          simp only [scanKeys, hlook, hc]
        have havT : availableB model now usage resolved ki = true := by
          simp [availableB, hcls, hc]
        have hdgF : degradedB model now usage resolved ki = false := by
          simp [degradedB, hcls, hc]
        constructor
        · rw [hsP, ihp, hfp]
          simp [List.filter_cons, havT]
        · rw [hsF, ihd, hfd]
          simp [List.filter_cons, hdgF]

theorem getKey_result_key (km : KeyManager) (mn : String) (now : Nat) :
    (getKey km mn now).result.map (fun r => r.1)
      = match km.keys.find? (availableB (modelOf km.config (resolveModelName km.config mn)) now
            km.usage (resolveModelName km.config mn)) with
        | some ki => some ki.key
        | none =>
          (km.keys.find? (degradedB (modelOf km.config (resolveModelName km.config mn)) now
            km.usage (resolveModelName km.config mn))).map KeyInfo.key := by
  obtain ⟨hp, hf⟩ := scan_spec (modelOf km.config (resolveModelName km.config mn))
      (resolveModelName km.config mn) now km.keys km.usage
  rw [← filter_head_eq_find, ← filter_head_eq_find]
  simp only [getKey]
  rw [hp, hf]
  cases hP : km.keys.filter (availableB (modelOf km.config (resolveModelName km.config mn)) now
      km.usage (resolveModelName km.config mn)) with
  | nil =>
    cases hF : km.keys.filter (degradedB (modelOf km.config (resolveModelName km.config mn)) now
        km.usage (resolveModelName km.config mn)) with
    | nil => simp
    | cons kj t => simp
  | cons ki t => simp

theorem getKey_usage_eq (km : KeyManager) (mn : String) (now : Nat) :
    (getKey km mn now).usage
      = (scanKeys (modelOf km.config (resolveModelName km.config mn))
          (resolveModelName km.config mn) now km.keys km.usage).usage := by
  simp only [getKey]
  split <;> rfl

theorem scan_lookup_spec (model : LanguageModel) (resolved : String) (now : Nat)
    (ks : List KeyInfo) :
    ∀ (usage : List (String × LanguageModelUsage)) (k2 : String) (u0 : LanguageModelUsage),
      alookup usage k2 = some u0 →
      ∃ w, alookup (scanKeys model resolved now ks usage).usage k2 = some w ∧
        w.todayUsage = u0.todayUsage ∧
        (u0.exceeded = true → w.exceeded = true) ∧
        ((∃ ki ∈ ks, resolved ++ "_" ++ ki.key = k2) → 4100000 ≤ u0.todayUsage →
          w.exceeded = true) := by
  induction ks with
  | nil =>
    intro usage k2 u0 h
    refine ⟨u0, h, rfl, fun hh => hh, fun hki _ => ?_⟩
    rcases hki with ⟨ki, hmem, _⟩
    exact absurd hmem (List.not_mem_nil ki)
  | cons ki rest ih =>
    intro usage k2 u0 h
    cases hlook : alookup usage (resolved ++ "_" ++ ki.key) with
    | none =>
      have hs : scanKeys model resolved now (ki :: rest) usage
          = scanKeys model resolved now rest usage := by
        simp only [scanKeys, hlook]
      rw [hs]
      obtain ⟨w, hw, ht, hmono, hcap⟩ := ih usage k2 u0 h
      refine ⟨w, hw, ht, hmono, ?_⟩
      rintro ⟨ki2, hmem, hkey⟩ hle
      rcases List.mem_cons.mp hmem with h1 | h2
      · subst h1
        rw [hkey] at hlook
        rw [hlook] at h
        cases h
      · exact hcap ⟨ki2, h2, hkey⟩ hle
    | some u =>
      have hsU : (scanKeys model resolved now (ki :: rest) usage).usage
          = (scanKeys model resolved now rest
              (aset usage (resolved ++ "_" ++ ki.key) (processCell model now u).1)).usage := by
        cases hc : (processCell model now u).2 <;> simp only [scanKeys, hlook, hc]
      rw [hsU]
      by_cases hk : (resolved ++ "_" ++ ki.key) = k2
      · rw [hk] at hlook
        have h0 : u0 = u := by
          rw [h] at hlook
          exact Option.some.inj hlook
        subst h0
        have h2 : alookup (aset usage k2 (processCell model now u0).1) k2
            = some (processCell model now u0).1 := by
          rw [← hk] at hlook ⊢
          exact alookup_aset_self usage _ _ u0 hlook
        obtain ⟨w, hw, ht, hmono, _⟩ :=
          ih (aset usage k2 (processCell model now u0).1) k2 (processCell model now u0).1
            (by rw [← hk]; rw [← hk] at h2; exact h2)
        refine ⟨w, ?_, ?_, ?_, ?_⟩
        · rw [← hk]; rw [← hk] at hw; exact hw
        · rw [ht, processCell_todayUsage]
        · intro hex; exact hmono (processCell_exceeded_mono model now u0 hex)
        · rintro _ hle
          exact hmono (processCell_exceeded_cap model now u0 hle)
      · have h2 : alookup (aset usage (resolved ++ "_" ++ ki.key)
            (processCell model now u).1) k2 = some u0 := by
          rw [alookup_aset_ne usage _ k2 _ hk]; exact h
        obtain ⟨w, hw, ht, hmono, hcap⟩ := ih _ k2 u0 h2
        refine ⟨w, hw, ht, hmono, ?_⟩
        rintro ⟨ki2, hmem, hkey⟩ hle
        rcases List.mem_cons.mp hmem with h1 | h3
        · subst h1; exact absurd hkey hk
        · exact hcap ⟨ki2, h3, hkey⟩ hle

theorem recordUsage_config (km : KeyManager) (mn apiKey : String) (t now : Nat) :
    (recordUsage km mn apiKey t now).config = km.config := by
  unfold recordUsage; split <;> rfl

theorem recordUsage_keys (km : KeyManager) (mn apiKey : String) (t now : Nat) :
    (recordUsage km mn apiKey t now).keys = km.keys := by
  unfold recordUsage; split <;> rfl

theorem alookup_mapval (f : LanguageModelUsage → LanguageModelUsage)
    (m : List (String × LanguageModelUsage)) (k : String) :
    alookup (m.map (fun e => (e.1, f e.2))) k = (alookup m k).map f := by
  induction m with
  | nil => rfl
  | cons e rest ih =>
    obtain ⟨a, b⟩ := e
    by_cases ha : a = k
    · simp [alookup, ha]
    · simp [alookup, ha, ih]

theorem handleRLE_cap (km : KeyManager) (mn apiKey : String) (now : Nat)
    (u : LanguageModelUsage) (h : alookup km.usage (mn ++ "_" ++ apiKey) = some u)
    (hge : 4100000 ≤ u.todayUsage) :
    ∃ u3, alookup (handleRateLimitError km mn apiKey now).usage (mn ++ "_" ++ apiKey)
        = some u3 ∧ u3.exceeded = true := by
  refine ⟨{ updateLanguageModelUsage u now with exceeded := true }, ?_, rfl⟩
  simp only [handleRateLimitError, h]
  rw [if_pos (show 4100000 ≤ (updateLanguageModelUsage u now).todayUsage from hge)]
  exact alookup_aset_self _ _ _ _ h

theorem processCell_class_not_exceeded (model : LanguageModel) (now : Nat)
    (u : LanguageModelUsage) (h : (processCell model now u).2 ≠ KeyClass.unavailable) :
    u.exceeded = false := by
  by_cases h1 : 4100000 ≤ (updateLanguageModelUsage u now).todayUsage
  · exact absurd (by simp [processCell, h1]) h
  · by_cases h2 : tpdExceeded model (updateLanguageModelUsage u now) = true
    · exact absurd (by simp [processCell, h1, h2]) h
    · cases hx : (updateLanguageModelUsage u now).exceeded with
      | true => exact absurd (by simp [processCell, h1, h2, hx]) h
      | false => exact hx

/-- C6: the daily quota reset, applied to any ledger state, sets every
present cell's `today_tokens` to 0, empties its 24-hour history, clears
`exceeded` and `probably_exceeded`, and leaves `total_tokens_lifetime`
exactly unchanged. -/
theorem resetQuotas_resets_cells (km : KeyManager) (mk : String) (u : LanguageModelUsage)
    (h : alookup km.usage mk = some u) :
    ∃ u2, alookup (resetQuotas km).usage mk = some u2 ∧
      u2.todayUsage = 0 ∧ u2.past24HoursTokenUsage = [] ∧
      u2.exceeded = false ∧ u2.probablyExceeded = false ∧
      u2.totalTokenUse = u.totalTokenUse := by
  have e : alookup (resetQuotas km).usage mk = some (resetCellTransform u) := by
    simp only [resetQuotas]
    rw [alookup_mapval, h]
    rfl
  exact ⟨_, e, rfl, rfl, rfl, rfl, rfl⟩

/-- C10: the daily quota reset leaves every cell's `just_hit_429` flag
unchanged, so a cell that carried the flag into the reset still carries
it afterwards, and the first 429 after the reset (daily counter now 0,
below the hard cap) immediately sets `probably_exceeded` and clears the
flag instead of starting a fresh two-strike sequence. -/
theorem resetQuotas_preserves_justHit429 (km : KeyManager) (mn apiKey : String) (now : Nat)
    (u : LanguageModelUsage) (h : alookup km.usage (mn ++ "_" ++ apiKey) = some u) :
    ∃ u2, alookup (resetQuotas km).usage (mn ++ "_" ++ apiKey) = some u2 ∧
      u2.justHit429 = u.justHit429 ∧
      (u.justHit429 = true →
        ∃ u3, alookup (handleRateLimitError (resetQuotas km) mn apiKey now).usage
            (mn ++ "_" ++ apiKey) = some u3 ∧
          u3.probablyExceeded = true ∧ u3.justHit429 = false) := by
  have e : alookup (resetQuotas km).usage (mn ++ "_" ++ apiKey)
      = some (resetCellTransform u) := by
    simp only [resetQuotas]
    rw [alookup_mapval, h]
    rfl
  refine ⟨_, e, rfl, ?_⟩
  intro hJH
  refine ⟨{ updateLanguageModelUsage (resetCellTransform u) now with
      probablyExceeded := true
      justHit429 := false }, ?_, rfl, rfl⟩
  simp only [handleRateLimitError, e]
  rw [if_neg (show ¬ 4100000 ≤
        (updateLanguageModelUsage (resetCellTransform u) now).todayUsage
      from by rw [update_todayUsage]; exact (by omega : ¬ 4100000 ≤ 0)),
    if_pos (show (updateLanguageModelUsage (resetCellTransform u) now).justHit429 = true
      from hJH)]
  exact alookup_aset_self _ _ _ _ e

/-- C2: on a cell whose daily counter is below 4,100,000, a 429 with the
transient flag clear arms the flag and leaves both disable flags
unchanged (first strike), and a 429 with the flag armed sets
`probably_exceeded` and clears the flag (second strike); `exceeded` is
untouched either way.  Stated jointly: the new flag is the negation of
the old one, and the new `probably_exceeded` is the old one or-ed with
the old flag. -/
theorem handleRateLimit_two_strike (km : KeyManager) (mn apiKey : String) (now : Nat)
    (u : LanguageModelUsage) (h : alookup km.usage (mn ++ "_" ++ apiKey) = some u)
    (hcap : u.todayUsage < 4100000) :
    ∃ u2, alookup (handleRateLimitError km mn apiKey now).usage (mn ++ "_" ++ apiKey)
        = some u2 ∧
      u2.justHit429 = !u.justHit429 ∧
      u2.probablyExceeded = (u.justHit429 || u.probablyExceeded) ∧
      u2.exceeded = u.exceeded := by
  have hne : ¬ 4100000 ≤ (updateLanguageModelUsage u now).todayUsage := by
    rw [update_todayUsage]; omega
  cases hJ : u.justHit429 with
  | true =>
    refine ⟨{ updateLanguageModelUsage u now with
        probablyExceeded := true
        justHit429 := false }, ?_, ?_, ?_, rfl⟩
    · simp only [handleRateLimitError, h]
      rw [if_neg hne, if_pos (show (updateLanguageModelUsage u now).justHit429 = true
          from by rw [update_justHit429, hJ])]
      exact alookup_aset_self _ _ _ _ h
    · rfl
    · rfl
  | false =>
    refine ⟨{ updateLanguageModelUsage u now with justHit429 := true }, ?_, ?_, ?_, rfl⟩
    · simp only [handleRateLimitError, h]
      rw [if_neg hne, if_neg (show ¬ (updateLanguageModelUsage u now).justHit429 = true
          from by rw [update_justHit429, hJ]; simp)]
      exact alookup_aset_self _ _ _ _ h
    · rfl
    · rfl

/-- C7 counterexample: on a cell whose `probably_exceeded` is false but
whose `just_hit_429` is true, `EnableModel` leaves the state entirely
unchanged — in particular `just_hit_429` stays true — refuting the claim
that the call clears both flags regardless of the cell's prior state. -/
theorem enableModel_counterexample :
    enableModel c7KM "M" "K" = c7KM ∧ c7Cell.justHit429 = true := by
  constructor
  · rfl
  · rfl

/-- C7 amended: on a present cell, `EnableKey` (source `EnableModel`)
leaves `probably_exceeded` false afterwards, but clears `just_hit_429`
only when `probably_exceeded` was set; when `probably_exceeded` was
already false the call is a no-op and `just_hit_429` keeps its old
value.  All other fields are untouched, and the call is idempotent. -/
theorem enableModel_spec (km : KeyManager) (mn apiKey : String) (u : LanguageModelUsage)
    (h : alookup km.usage (mn ++ "_" ++ apiKey) = some u) :
    (∃ u2, alookup (enableModel km mn apiKey).usage (mn ++ "_" ++ apiKey) = some u2 ∧
        u2.probablyExceeded = false ∧
        u2.justHit429 = (!u.probablyExceeded && u.justHit429) ∧
        u2.exceeded = u.exceeded ∧
        u2.totalTokenUse = u.totalTokenUse ∧
        u2.todayUsage = u.todayUsage ∧
        u2.past24HoursTokenUsage = u.past24HoursTokenUsage) ∧
      enableModel (enableModel km mn apiKey) mn apiKey = enableModel km mn apiKey := by
  cases hPE : u.probablyExceeded with
  | false =>
    have e : enableModel km mn apiKey = km := by
      simp only [enableModel, h]
      rw [if_neg (show ¬ u.probablyExceeded = true from by rw [hPE]; simp)]
    constructor
    · refine ⟨u, ?_, hPE, ?_, rfl, rfl, rfl, rfl⟩
      · rw [e]; exact h
      · simp
    · rw [e, e]
  | true =>
    have e : enableModel km mn apiKey
        = { km with usage := aset km.usage (mn ++ "_" ++ apiKey) (enabledCell u) } := by
      simp only [enableModel, h]
      rw [if_pos hPE]
    constructor
    · refine ⟨enabledCell u, ?_, rfl, rfl, rfl, rfl, rfl, rfl⟩
      rw [e]; exact alookup_aset_self _ _ _ _ h
    · rw [e]
      have h2 : alookup (aset km.usage (mn ++ "_" ++ apiKey) (enabledCell u))
            (mn ++ "_" ++ apiKey) = some (enabledCell u) :=
        alookup_aset_self _ _ _ _ h
      have h3 : (enabledCell u).probablyExceeded = false := rfl
      simp [enableModel, h2, h3]

/-- C4 counterexample: at `tpm_limit = 1000` and `t₆₀ = 501` the code
computes a delay of 0 whole seconds, while the claimed exact formula
gives (501 − 500)/1000 × 60 = 0.06 s; cross-multiplied, the returned
delay times `tpm_limit` differs from (t₆₀ − tpm_limit/2) × 60, so the
delay is not the exact quotient the claim states. -/
theorem precallDelay_formula_counterexample :
    precallDelay 1000 501 = 0
      ∧ precallDelay 1000 501 * 1000 ≠ (501 - 1000 / 2) * 60 := by
  decide

/-- C4 amended: with `t₆₀` the 60-second window sum, the Selector delay is
0 seconds when `t₆₀ ≤ ⌊tpm_limit/2⌋`, is `(t₆₀ − ⌊tpm_limit/2⌋) × 60`
divided by `tpm_limit` and rounded down to a whole second when
`⌊tpm_limit/2⌋ < t₆₀ ≤ tpm_limit`, and is 60 seconds when
`t₆₀ > tpm_limit`. -/
theorem precallDelay_branches (tpmLimit t60 : Nat) :
    (t60 ≤ tpmLimit / 2 → precallDelay tpmLimit t60 = 0)
  ∧ (tpmLimit / 2 < t60 → t60 ≤ tpmLimit →
      precallDelay tpmLimit t60 = (t60 - tpmLimit / 2) * 60 / tpmLimit)
  ∧ (tpmLimit < t60 → precallDelay tpmLimit t60 = 60) := by
  unfold precallDelay
  refine ⟨?_, ?_, ?_⟩
  · intro h
    rw [if_neg (by omega), if_neg (by omega)]
  · intro h1 h2
    rw [if_neg (by omega), if_pos h1]
  · intro h
    rw [if_pos h]

/-- C9 counterexample: a key holding a cell with both `probably_exceeded`
and `exceeded` set appears in both the `rate_limited` and the
`quota_exhausted` sets of the status snapshot, so the three key sets are
not pairwise disjoint. -/
theorem status_sets_counterexample :
    "K" ∈ statusRateLimitedKeys c9KM ∧ "K" ∈ statusQuotaExhaustedKeys c9KM := by
  decide

/-- C9 amended: in every snapshot, `rate_limited` consists of exactly
the configured keys with `probably_exceeded` set on some model's cell,
`quota_exhausted` of exactly those with `exceeded` set on some model's
cell, and `unavailable` is empty (hence trivially disjoint from both);
but `rate_limited` and `quota_exhausted` may overlap. -/
theorem status_key_sets_spec (km : KeyManager) (k : String) :
    (k ∈ statusRateLimitedKeys km ↔ k ∈ statusAllKeys km ∧
        ∃ mn ∈ statusModelOrder km, ∃ u, alookup km.usage (mn ++ "_" ++ k) = some u ∧
          u.probablyExceeded = true)
  ∧ (k ∈ statusQuotaExhaustedKeys km ↔ k ∈ statusAllKeys km ∧
        ∃ mn ∈ statusModelOrder km, ∃ u, alookup km.usage (mn ++ "_" ++ k) = some u ∧
          u.exceeded = true)
  ∧ statusUnavailableKeys km = [] := by
  refine ⟨?_, ?_, rfl⟩
  · unfold statusRateLimitedKeys
    rw [List.mem_dedup, List.mem_filter]
    constructor
    · rintro ⟨hmem, hany⟩
      refine ⟨hmem, ?_⟩
      rw [List.any_eq_true] at hany
      obtain ⟨mn, hmn, hflag⟩ := hany
      refine ⟨mn, hmn, ?_⟩
      unfold cellFlag at hflag
      cases hl : alookup km.usage (mn ++ "_" ++ k) with
      | none => rw [hl] at hflag; cases hflag
      | some u => rw [hl] at hflag; exact ⟨u, rfl, hflag⟩
    · rintro ⟨hmem, mn, hmn, u, hu, hPE⟩
      refine ⟨hmem, ?_⟩
      rw [List.any_eq_true]
      refine ⟨mn, hmn, ?_⟩
      unfold cellFlag
      rw [hu]
      exact hPE
  · unfold statusQuotaExhaustedKeys
    rw [List.mem_dedup, List.mem_filter]
    constructor
    · rintro ⟨hmem, hany⟩
      refine ⟨hmem, ?_⟩
      rw [List.any_eq_true] at hany
      obtain ⟨mn, hmn, hflag⟩ := hany
      refine ⟨mn, hmn, ?_⟩
      unfold cellFlag at hflag
      cases hl : alookup km.usage (mn ++ "_" ++ k) with
      | none => rw [hl] at hflag; cases hflag
      | some u => rw [hl] at hflag; exact ⟨u, rfl, hflag⟩
    · rintro ⟨hmem, mn, hmn, u, hu, hEx⟩
      refine ⟨hmem, ?_⟩
      rw [List.any_eq_true]
      refine ⟨mn, hmn, ?_⟩
      unfold cellFlag
      rw [hu]
      exact hEx


/-- C1: `GetKey` scans the registry in canonical order — all priority keys
in config order, then all secondary keys in config order, as
`NewKeyManager` builds it — and returns the first key classified
Available; when no key is Available it returns the first Degraded
(probably-exceeded, not exceeded) key, and when neither tier is
inhabited it fails.  Being a pure function of the ledger state, the
choice is deterministic: equal states give equal results. -/
theorem getKey_first_available_canonical (km : KeyManager) (mn : String) (now : Nat)
    (hkeys : km.keys = buildKeys km.config) :
    (getKey km mn now).result.map (fun r => r.1)
      = match (buildKeys km.config).find? (availableB (modelOf km.config
            (resolveModelName km.config mn)) now km.usage (resolveModelName km.config mn)) with
        | some ki => some ki.key
        | none =>
          ((buildKeys km.config).find? (degradedB (modelOf km.config
            (resolveModelName km.config mn)) now km.usage
            (resolveModelName km.config mn))).map KeyInfo.key := by
  rw [← hkeys]
  exact getKey_result_key km mn now

/-- C3: whenever `GetKey` succeeds, the cell of the returned key for the
resolved model has `exceeded = false` in the pre-call ledger state; a
key whose cell carries `exceeded = true` is never returned. -/
theorem getKey_returns_nonexceeded (km : KeyManager) (mn : String) (now : Nat)
    (k m : String) (d : Nat)
    (hres : (getKey km mn now).result = some (k, m, d))
    (u : LanguageModelUsage) (hu : alookup km.usage (m ++ "_" ++ k) = some u) :
    u.exceeded = false := by
  obtain ⟨hp, hf⟩ := scan_spec (modelOf km.config (resolveModelName km.config mn))
      (resolveModelName km.config mn) now km.keys km.usage
  simp only [getKey] at hres
  cases hC : (if (scanKeys (modelOf km.config (resolveModelName km.config mn))
        (resolveModelName km.config mn) now km.keys km.usage).primary.isEmpty = true
      then (scanKeys (modelOf km.config (resolveModelName km.config mn))
        (resolveModelName km.config mn) now km.keys km.usage).fallback
      else (scanKeys (modelOf km.config (resolveModelName km.config mn))
        (resolveModelName km.config mn) now km.keys km.usage).primary) with
  | nil =>
    rw [hC] at hres
    simp at hres
  | cons ki t =>
    rw [hC] at hres
    simp at hres
    obtain ⟨hk1, hm1, _⟩ := hres
    have hmem : ki ∈ ki :: t := List.mem_cons_self ki t
    have hclassNe : (processCell (modelOf km.config m) now u).2
        ≠ KeyClass.unavailable := by
      by_cases hPe : (scanKeys (modelOf km.config (resolveModelName km.config mn))
          (resolveModelName km.config mn) now km.keys km.usage).primary.isEmpty = true
      · rw [if_pos hPe] at hC
        rw [hC] at hf
        have hmem2 : ki ∈ km.keys.filter (degradedB (modelOf km.config
            (resolveModelName km.config mn)) now km.usage (resolveModelName km.config mn)) := by
          rw [← hf]; exact hmem
        have hd := (List.mem_filter.mp hmem2).2
        unfold degradedB at hd
        rw [beq_iff_eq] at hd
        rw [hm1, hk1, hu] at hd
        intro hcontra
        rw [show classifyCell (modelOf km.config m) now (some u)
            = (processCell (modelOf km.config m) now u).2 from rfl] at hd
        rw [hcontra] at hd
        cases hd
      · rw [if_neg hPe] at hC
        rw [hC] at hp
        have hmem2 : ki ∈ km.keys.filter (availableB (modelOf km.config
            (resolveModelName km.config mn)) now km.usage (resolveModelName km.config mn)) := by
          rw [← hp]; exact hmem
        have hd := (List.mem_filter.mp hmem2).2
        unfold availableB at hd
        rw [beq_iff_eq] at hd
        rw [hm1, hk1, hu] at hd
        intro hcontra
        rw [show classifyCell (modelOf km.config m) now (some u)
            = (processCell (modelOf km.config m) now u).2 from rfl] at hd
        rw [hcontra] at hd
        cases hd
    exact processCell_class_not_exceeded _ _ _ hclassNe

/-- C8: `RecordUsage` never touches the `exceeded` flag, even when the
added tokens push the daily counter across 4,100,000; the flag is set
only afterwards, by a `HandleRateLimit` call, or by a `GetKey` scan that
reaches the key and observes the counter at or above the cap. -/
theorem recordUsage_defers_exceeded (km : KeyManager) (mn apiKey : String) (t now : Nat)
    (u : LanguageModelUsage) (h : alookup km.usage (mn ++ "_" ++ apiKey) = some u) :
    (∃ u2, alookup (recordUsage km mn apiKey t now).usage (mn ++ "_" ++ apiKey) = some u2 ∧
        u2.exceeded = u.exceeded ∧ u2.todayUsage = u.todayUsage + t) ∧
    (4100000 ≤ u.todayUsage + t →
      ∃ u3, alookup (handleRateLimitError (recordUsage km mn apiKey t now) mn apiKey now).usage
          (mn ++ "_" ++ apiKey) = some u3 ∧ u3.exceeded = true) ∧
    (4100000 ≤ u.todayUsage + t →
      (∃ ki ∈ km.keys, ki.key = apiKey) →
      resolveModelName km.config mn = mn →
      ∃ u4, alookup (getKey (recordUsage km mn apiKey t now) mn now).usage
          (mn ++ "_" ++ apiKey) = some u4 ∧ u4.exceeded = true) := by
  have e2 : alookup (recordUsage km mn apiKey t now).usage (mn ++ "_" ++ apiKey)
      = some (updateLanguageModelUsage
          { u with
            totalTokenUse := u.totalTokenUse + t
            todayUsage := u.todayUsage + t
            past24HoursTokenUsage := u.past24HoursTokenUsage ++ [⟨now, t⟩]
            justHit429 := false } now) := by
    simp only [recordUsage, h]
    exact alookup_aset_self _ _ _ _ h
  refine ⟨⟨_, e2, rfl, rfl⟩, ?_, ?_⟩
  · intro hge
    exact handleRLE_cap _ _ _ _ _ e2 hge
  · intro hge hki hres
    rw [getKey_usage_eq]
    obtain ⟨ki, hkimem, hkik⟩ := hki
    obtain ⟨w, hw, _, _, hcap⟩ := scan_lookup_spec
        (modelOf (recordUsage km mn apiKey t now).config
          (resolveModelName (recordUsage km mn apiKey t now).config mn))
        (resolveModelName (recordUsage km mn apiKey t now).config mn) now
        (recordUsage km mn apiKey t now).keys
        (recordUsage km mn apiKey t now).usage (mn ++ "_" ++ apiKey) _ e2
    refine ⟨w, hw, hcap ?_ hge⟩
    refine ⟨ki, ?_, ?_⟩
    · rw [recordUsage_keys]; exact hkimem
    · rw [recordUsage_config, hres, hkik]

/-- Witness for the C1 theorem: on the concrete two-key state `km1` the
Selector returns the first priority key. -/
theorem getKey_first_available_canonical_witness :
    (getKey km1 "M" 100).result.map (fun r => r.1) = some "K1" := by
  have h := getKey_first_available_canonical km1 "M" 100 rfl
  rw [h]
  decide

/-- Witness for the C2 theorem: a first strike on a fresh cell. -/
theorem handleRateLimit_two_strike_witness :
    ∃ u2, alookup (handleRateLimitError km1 "M" "K1" 100).usage ("M" ++ "_" ++ "K1")
        = some u2 ∧
      u2.justHit429 = !freshCell.justHit429 ∧
      u2.probablyExceeded = (freshCell.justHit429 || freshCell.probablyExceeded) ∧
      u2.exceeded = freshCell.exceeded :=
  handleRateLimit_two_strike km1 "M" "K1" 100 freshCell (by decide) (by decide)

/-- Witness for the C3 theorem: on `km3`, where `K1` is hard-disabled,
`GetKey` returns `K2`, whose cell is not exceeded. -/
theorem getKey_returns_nonexceeded_witness : freshCell.exceeded = false :=
  getKey_returns_nonexceeded km3 "M" 100 "K2" "M" 0 (by decide) freshCell (by decide)

/-- Witness for the amended C4 theorem at the three branches. -/
theorem precallDelay_branches_witness :
    precallDelay 1000 400 = 0 ∧ precallDelay 1000 600 = 6
      ∧ precallDelay 1000 1500 = 60 :=
  ⟨(precallDelay_branches 1000 400).1 (by decide),
   (precallDelay_branches 1000 600).2.1 (by decide) (by decide),
   (precallDelay_branches 1000 1500).2.2 (by decide)⟩


/-- Witness for the C6 theorem on a worn cell. -/
theorem resetQuotas_resets_cells_witness :
    ∃ u2, alookup (resetQuotas km6).usage "M_K1" = some u2 ∧
      u2.todayUsage = 0 ∧ u2.past24HoursTokenUsage = [] ∧
      u2.exceeded = false ∧ u2.probablyExceeded = false ∧
      u2.totalTokenUse = wornCell.totalTokenUse :=
  resetQuotas_resets_cells km6 "M_K1" wornCell (by decide)

/-- Witness for the amended C7 theorem on a probably-exceeded cell. -/
theorem enableModel_spec_witness :
    (∃ u2, alookup (enableModel km6 "M" "K1").usage ("M" ++ "_" ++ "K1") = some u2 ∧
        u2.probablyExceeded = false ∧
        u2.justHit429 = (!wornCell.probablyExceeded && wornCell.justHit429) ∧
        u2.exceeded = wornCell.exceeded ∧
        u2.totalTokenUse = wornCell.totalTokenUse ∧
        u2.todayUsage = wornCell.todayUsage ∧
        u2.past24HoursTokenUsage = wornCell.past24HoursTokenUsage) ∧
      enableModel (enableModel km6 "M" "K1") "M" "K1" = enableModel km6 "M" "K1" :=
  enableModel_spec km6 "M" "K1" wornCell (by decide)

/-- Witness for the C8 theorem: one token pushes a near-cap cell across
the hard cap without setting `exceeded`; the next 429 and the next scan
both set it. -/
theorem recordUsage_defers_exceeded_witness :
    (∃ u2, alookup (recordUsage km8 "M" "K1" 1 100).usage ("M" ++ "_" ++ "K1") = some u2 ∧
        u2.exceeded = nearCapCell.exceeded ∧ u2.todayUsage = nearCapCell.todayUsage + 1) ∧
    (∃ u3, alookup (handleRateLimitError (recordUsage km8 "M" "K1" 1 100) "M" "K1" 100).usage
        ("M" ++ "_" ++ "K1") = some u3 ∧ u3.exceeded = true) ∧
    (∃ u4, alookup (getKey (recordUsage km8 "M" "K1" 1 100) "M" 100).usage
        ("M" ++ "_" ++ "K1") = some u4 ∧ u4.exceeded = true) := by
  have h := recordUsage_defers_exceeded km8 "M" "K1" 1 100 nearCapCell (by decide)
  exact ⟨h.1, h.2.1 (by decide),
    h.2.2 (by decide) ⟨⟨"K1", true, 0⟩, by decide, rfl⟩ (by decide)⟩

/-- Witness for the C10 theorem on a worn cell carrying the 429 flag. -/
theorem resetQuotas_preserves_justHit429_witness :
    ∃ u2, alookup (resetQuotas km6).usage ("M" ++ "_" ++ "K1") = some u2 ∧
      u2.justHit429 = wornCell.justHit429 ∧
      (wornCell.justHit429 = true →
        ∃ u3, alookup (handleRateLimitError (resetQuotas km6) "M" "K1" 100).usage
            ("M" ++ "_" ++ "K1") = some u3 ∧
          u3.probablyExceeded = true ∧ u3.justHit429 = false) :=
  resetQuotas_preserves_justHit429 km6 "M" "K1" 100 wornCell (by decide)

theorem scan_classify_stable (model : LanguageModel) (resolved : String) (now : Nat)
    (ks : List KeyInfo) :
    ∀ (usage : List (String × LanguageModelUsage)) (k2 : String),
      classifyCell model now (alookup (scanKeys model resolved now ks usage).usage k2)
        = classifyCell model now (alookup usage k2) := by
  induction ks with
  | nil => intro usage k2; rfl
  | cons ki rest ih =>
    intro usage k2
    cases hlook : alookup usage (resolved ++ "_" ++ ki.key) with
    | none =>
      have hs : scanKeys model resolved now (ki :: rest) usage
          = scanKeys model resolved now rest usage := by
        simp only [scanKeys, hlook]
      rw [hs]
      exact ih usage k2
    | some u =>
      have hsU : (scanKeys model resolved now (ki :: rest) usage).usage
          = (scanKeys model resolved now rest
              (aset usage (resolved ++ "_" ++ ki.key) (processCell model now u).1)).usage := by
        cases hc : (processCell model now u).2 <;> simp only [scanKeys, hlook, hc]
      rw [hsU, ih]
      exact classify_aset_stable model now usage _ u hlook k2

theorem find_congr_of_pointwise {α : Type} (p q : α → Bool) (l : List α)
    (h : ∀ a ∈ l, p a = q a) : l.find? p = l.find? q := by
  rw [← filter_head_eq_find, ← filter_head_eq_find, List.filter_congr h]

theorem getKey_post_scan_same_key (km : KeyManager) (mn : String) (now : Nat) :
    (getKey { km with usage := (getKey km mn now).usage } mn now).result.map (fun r => r.1)
      = (getKey km mn now).result.map (fun r => r.1) := by
  have hstab : ∀ k2, classifyCell (modelOf km.config (resolveModelName km.config mn)) now
      (alookup (getKey km mn now).usage k2)
      = classifyCell (modelOf km.config (resolveModelName km.config mn)) now
        (alookup km.usage k2) := by
    intro k2
    rw [getKey_usage_eq km mn now]
    exact scan_classify_stable (modelOf km.config (resolveModelName km.config mn))
      (resolveModelName km.config mn) now km.keys km.usage k2
  rw [getKey_result_key { km with usage := (getKey km mn now).usage } mn now,
      getKey_result_key km mn now]
  dsimp only
  rw [find_congr_of_pointwise
        (availableB (modelOf km.config (resolveModelName km.config mn)) now
          (getKey km mn now).usage (resolveModelName km.config mn))
        (availableB (modelOf km.config (resolveModelName km.config mn)) now
          km.usage (resolveModelName km.config mn))
        km.keys (fun ki _ => by unfold availableB; rw [hstab]),
      find_congr_of_pointwise
        (degradedB (modelOf km.config (resolveModelName km.config mn)) now
          (getKey km mn now).usage (resolveModelName km.config mn))
        (degradedB (modelOf km.config (resolveModelName km.config mn)) now
          km.usage (resolveModelName km.config mn))
        km.keys (fun ki _ => by unfold degradedB; rw [hstab])]

theorem dispatchIter_ne_verbatim503 (upstream : Nat → Nat × Nat) (now : Nat) (mn0 : String) :
    ∀ (fuel i : Nat) (k m : String) (km : KeyManager),
      (dispatchIter upstream now mn0 fuel i k m km).2
        ≠ DispatchResult.upstreamVerbatim 503 := by
  intro fuel
  induction fuel with
  | zero =>
    intro i k m km
    simp [dispatchIter]
  | succ fuel ih =>
    intro i k m km
    by_cases hi : 0 < i
    · cases hres : (getKey km mn0 now).result with
      | none => simp [dispatchIter, hi, hres]
      | some r =>
        obtain ⟨k2, m2, d2⟩ := r
        by_cases h200 : (upstream i).1 = 200
        · simp [dispatchIter, hi, hres, h200]
        · by_cases h429 : (upstream i).1 = 429
          · simp only [dispatchIter]
            simp [hi, hres, h200, h429]
            exact ih (i + 1) k2 m2 _
          · by_cases h503 : (upstream i).1 = 503
            · simp only [dispatchIter]
              simp [hi, hres, h200, h429, h503]
              exact ih (i + 1) k2 m2 _
            · simp [dispatchIter, hi, hres, h200, h429, h503]
    · by_cases h200 : (upstream i).1 = 200
      · simp [dispatchIter, hi, h200]
      · by_cases h429 : (upstream i).1 = 429
        · simp only [dispatchIter]
          simp [hi, h200, h429]
          exact ih (i + 1) k m _
        · by_cases h503 : (upstream i).1 = 503
          · simp only [dispatchIter]
            simp [hi, h200, h429, h503]
            exact ih (i + 1) k m _
          · simp [dispatchIter, hi, h200, h429, h503]

/-- C5: an upstream HTTP 503 is transient for the dispatch loop: the
current attempt neither marks the key's state nor returns — after the
fixed 5-second sleep (time has no state effect and is not modelled) the
loop proceeds to its next attempt with the ledger untouched, where the
retry fetch, run against the unchanged ledger, returns the same key by
the Selector's determinism; and no run of the loop or of the whole
dispatch ever returns an upstream 503 verbatim — exhaustion of the
5-attempt bound is reported by a synthesized response instead. -/
theorem dispatch_503_transient_retry (upstream : Nat → Nat × Nat) (now : Nat)
    (mn0 : String) (km : KeyManager) :
    ((upstream 0).1 = 503 → ∀ fuel k m,
      dispatchIter upstream now mn0 (fuel + 1) 0 k m km
        = dispatchIter upstream now mn0 fuel 1 k m km)
  ∧ (∀ fuel i k m k2 m2 d2, 0 < i → (upstream i).1 = 503 →
      (getKey km mn0 now).result = some (k2, m2, d2) →
      dispatchIter upstream now mn0 (fuel + 1) i k m km
        = dispatchIter upstream now mn0 fuel (i + 1) k2 m2
            { km with usage := (getKey km mn0 now).usage })
  ∧ ((getKey { km with usage := (getKey km mn0 now).usage } mn0 now).result.map
        (fun r => r.1)
        = (getKey km mn0 now).result.map (fun r => r.1))
  ∧ (∀ fuel i k m km2, (dispatchIter upstream now mn0 fuel i k m km2).2
        ≠ DispatchResult.upstreamVerbatim 503)
  ∧ ((proxyDispatch km mn0 now upstream).2 ≠ DispatchResult.upstreamVerbatim 503) := by
  refine ⟨?_, ?_, getKey_post_scan_same_key km mn0 now,
    fun fuel i k m km2 => dispatchIter_ne_verbatim503 upstream now mn0 fuel i k m km2, ?_⟩
  · intro h503 fuel k m
    simp [dispatchIter, h503]
  · intro fuel i k m k2 m2 d2 hi h503 hget
    simp [dispatchIter, hi, h503, hget]
  · simp only [proxyDispatch]
    cases hres : (getKey km mn0 now).result with
    | none => simp [hres]
    | some r =>
      obtain ⟨k2, m2, d2⟩ := r
      simp only [hres]
      exact dispatchIter_ne_verbatim503 upstream now mn0 5 0 k2 m2 _

/-- Witness for the C5 theorem: with an upstream that always answers 503,
the loop steps from attempt 0 to attempt 1 with the ledger unmarked,
the retry fetch returns the same key `K1`, and the whole dispatch ends
in the synthesized exhaustion response, never a verbatim 503. -/
theorem dispatch_503_transient_retry_witness :
    (dispatchIter (fun _ => (503, 0)) 100 "M" 5 0 "K1" "M" km1
      = dispatchIter (fun _ => (503, 0)) 100 "M" 4 1 "K1" "M" km1)
  ∧ (dispatchIter (fun _ => (503, 0)) 100 "M" 4 1 "K1" "M" km1
      = dispatchIter (fun _ => (503, 0)) 100 "M" 3 2 "K1" "M"
          { km1 with usage := (getKey km1 "M" 100).usage })
  ∧ ((proxyDispatch km1 "M" 100 (fun _ => (503, 0))).2
      = DispatchResult.retriesExhausted) :=
  ⟨(dispatch_503_transient_retry (fun _ => (503, 0)) 100 "M" km1).1 rfl 4 "K1" "M",
   (dispatch_503_transient_retry (fun _ => (503, 0)) 100 "M" km1).2.1 3 1 "K1" "M" "K1" "M" 0
     (by decide) rfl (by decide),
   by decide⟩
